import Mathlib

/-!
Verification development for the dms_backend document-management service.

The relational store (drizzle/Postgres) is modelled as lists of rows, the
Azure blob container as a log of writes, and each Hono route handler as a
pure function from the request parameters and the current state to a typed
result plus the successor state.  JavaScript quirks that are observable in
the handlers are modelled explicitly:
  * a drizzle query result is an array, and an array is always truthy, so
    guards of the form `if (!rows) throw ...` can never fire (`jsFalsyList`);
  * reading a property of `rows[0]` when the array is empty is a runtime
    `TypeError`, surfaced by the global error handler as HTTP 500
    (`HErr.typeError`);
  * `x || y` on strings/numbers treats `""`, `0` and `null` as falsy;
  * in `file[0].version || 0 + 1` the `+` binds tighter than `||`, so the
    expression is `version || 1`;
  * `word[0]` of an empty string is `undefined`, and a template literal
    renders it as the text "undefined".
Text is modelled as `List Char`; the `TextDecoder`/`TextEncoder` UTF-8
round-trip is modelled as the identity on that representation.
-/

namespace DMS

/-- JS regex `\s` character class (the whitespace set used by `split(/\s+/)`
and `trim()`). -/
def isWs (c : Char) : Bool :=
  c == ' ' || c == '\t' || c == '\n' || c == '\r' ||
  c == '\u000B' || c == '\u000C' || c == '\u00A0' || c == '\u1680' ||
  (0x2000 ≤ c.toNat && c.toNat ≤ 0x200A) ||
  c == '\u2028' || c == '\u2029' || c == '\u202F' || c == '\u205F' ||
  c == '\u3000' || c == '\uFEFF'

/-- The characters removed by `input.replace(/[.',|!|?']/g, '')` in
`filterBadWords`: `.` (46), apostrophe (39), `,` (44), `|` (124),
`!` (33), `?` (63). -/
def isStripped (c : Char) : Bool :=
  c.toNat == 46 || c.toNat == 39 || c.toNat == 44 ||
  c.toNat == 124 || c.toNat == 33 || c.toNat == 63

/-- ASCII lower-casing of one character, as `String.prototype.toLowerCase`
acts on the ASCII range (codes 65-90 shift to 97-122). -/
def charLower (c : Char) : Char :=
  if c.toNat ≥ 65 && c.toNat ≤ 90 then Char.ofNat (c.toNat + 32) else c

/-- `text.toLowerCase()` on the character-list representation. -/
def lowerL (s : List Char) : List Char := s.map charLower

/-- `input.replace(/[.',|!|?']/g, '')`. -/
def stripL (s : List Char) : List Char := s.filter (fun c => !isStripped c)

/-- One step of `splitWs`: `r` is the split of `cs`.  A whitespace
character in front of further whitespace is absorbed into the same run; in
front of a non-whitespace character (or at the end) it closes an empty
token; a non-whitespace character joins the first token of the rest. -/
def splitWsStep (c : Char) (cs : List Char) (r : List (List Char)) :
    List (List Char) :=
  if isWs c then
    match cs with
    | c2 :: _ => if isWs c2 then r else [] :: r
    | [] => [] :: r
  else
    match r with
    | t :: ts => (c :: t) :: ts
    | [] => [[c]]

/-- `text.split(/\s+/)` exactly as JavaScript computes it: maximal
whitespace runs separate the tokens, a leading (trailing) run contributes a
leading (trailing) empty token, and splitting the empty string yields
`[""]`. -/
def splitWs : List Char → List (List Char)
  | [] => [[]]
  | c :: cs => splitWsStep c cs (splitWs cs)

/-- `words.join(' ')`. -/
def joinTok (l : List (List Char)) : List Char := List.intercalate [' '] l

/-- `str.trim()`. -/
def trimL (s : List Char) : List Char :=
  ((s.dropWhile isWs).reverse.dropWhile isWs).reverse

/-- JavaScript string indexing inside a template literal: `s[i]` is the
one-character string when in range and the text "undefined" otherwise. -/
def jsIndex (w : List Char) (i : Nat) : List Char :=
  match w.get? i with
  | some c => [c]
  | none => ['u', 'n', 'd', 'e', 'f', 'i', 'n', 'e', 'd']

/-- The bad-word mask `` `${word[0]}*****${word[word.length - 1]}` ``. -/
def maskWord (w : List Char) : List Char :=
  jsIndex w 0 ++ ['*', '*', '*', '*', '*'] ++ jsIndex w (w.length - 1)

/-- The `badwords.json` table: a per-language-code list of blocked words
(`none` models a key whose value is absent or not an array). -/
def BadTable : Type := String → Option (List (List Char))

/-- `checkBadWord(userInput, langCode)` from src/utils.ts: look the language
up in the table (non-arrays count as no table), then test membership of the
trimmed, lower-cased input. -/
def checkBadWord (tbl : BadTable) (userInput : List Char) (langCode : String) : Bool :=
  match tbl langCode with
  | none => false
  | some words => words.contains (lowerL (trimL userInput))

/-- The per-token step of `filterBadWords`: blocked tokens are replaced by
`first-char + "*****" + last-char`, others pass through. -/
def filterStep (tbl : BadTable) (langCode : String) (word : List Char) : List Char :=
  if checkBadWord tbl word langCode then maskWord word else word

/-- `filterBadWords(input, langCode)` from src/utils.ts: strip the regex
character set, lower-case, split on whitespace runs, mask blocked tokens,
join with single spaces. -/
def filterBadWords (tbl : BadTable) (input : List Char) (langCode : String) : List Char :=
  joinTok ((splitWs (lowerL (stripL input))).map (filterStep tbl langCode))

/-! ## Relational store and blob store -/

/-- A `users` row (db/schema.ts); only the columns the modelled handlers
read or write are carried. -/
structure UserRow where
  user_id : String
  is_active : Bool
  is_manager : Bool
  deriving DecidableEq

/-- A `files` row (db/schema.ts).  `version` is a nullable integer column
with database default 1. -/
structure FileRow where
  file_id : String
  workspace_id : String
  uploader_id : String
  file_name : String
  file_path : String
  file_type : Option String
  file_size_bytes : Option Nat
  version : Option Int
  deriving DecidableEq

/-- A `file_permissions` row (db/schema.ts).  The five capability columns
have database default `false`, so stored rows always carry concrete
booleans. -/
structure PermRow where
  permission_id : String
  file_id : String
  user_id : String
  workspace_id : String
  can_view : Bool
  can_edit : Bool
  can_delete : Bool
  can_share : Bool
  can_download : Bool
  granted_by_id : String
  deriving DecidableEq

/-- The relational store: the three tables the modelled handlers touch,
each as a list of rows (list order plays the role of the store's row
order, which `limit(1)` queries observe). -/
structure DB where
  users : List UserRow
  files : List FileRow
  filePermissions : List PermRow
  deriving DecidableEq

/-- The blob container, as the log of `upload` calls (newest first):
blob name, stored bytes, content type. -/
def BlobStore : Type := List (String × List Char × String)

/-- Typed failure of a handler, as surfaced through Hono's error handler:
404 / 400 / 403 `HTTPException`s, or an uncaught JS `TypeError` (surfaced
as HTTP 500). -/
inductive HErr where
  | notFound (msg : String)
  | badRequest (msg : String)
  | forbidden (msg : String)
  | typeError
  deriving DecidableEq

/-- JS truthiness of an array value: an array is truthy even when empty,
so `if (!rows)` guards on query results are dead code. -/
def jsFalsyList {α : Type} (_ : List α) : Bool := false

/-- JS `q || dflt` for an optional string parameter: `undefined` and `""`
are falsy. -/
def jsOrStr (q : Option String) (dflt : String) : String :=
  match q with
  | some s => if s == "" then dflt else s
  | none => dflt

/-- JS truthiness test `if (x)` on an optional string: `undefined` and
`""` are falsy. -/
def jsTruthyStr (q : Option String) : Option String :=
  match q with
  | some s => if s == "" then none else some s
  | none => none

/-- JS `version || 0 + 1` on the nullable integer column: `+` binds
tighter than `||`, so this is `version || 1` — `null` and `0` become 1 and
every other value is returned unchanged. -/
def jsOrVersionOne (v : Option Int) : Int :=
  match v with
  | some n => if n == 0 then 1 else n
  | none => 1

/-- The `blockBlobClient.url` locator for a blob name. -/
def blobUrl (filename : String) : String := "https://blob.local/" ++ filename

/-- The five textual content types that trigger bad-word filtering in the
upload handler. -/
def isTextual (ct : String) : Bool :=
  ct == "text/plain" || ct == "application/json" || ct == "application/xml" ||
  ct == "application/rtf" || ct == "application/msword"

/-! ## Handlers -/

/-- `POST /upload/:userId/:workspaceId` (files router, part_000 lines
77-145).  Parameters mirror the request: path `userId`/`workspaceId`, the
body bytes, the optional `filename` and `fileId` query parameters, the
optional `content-type` header, and the row id the store would generate
for an insert.  Returns the handler outcome together with the successor
relational and blob states. -/
def uploadFile (tbl : BadTable) (db : DB) (blob : BlobStore)
    (user_id workspace_id : String) (body : List Char)
    (filenameQ fileIdQ contentTypeH : Option String)
    (newId : String) : Except HErr FileRow × DB × BlobStore :=
  let filename := jsOrStr filenameQ "uploaded_file"
  let contentType := jsOrStr contentTypeH "application/octet-stream"
  let user := db.users.filter (fun u => u.user_id == user_id)
  if user.isEmpty then
    (.error (.notFound "User not found"), db, blob)
  else
    let bytes0 := body
    let bytes_length := bytes0.length
    let bytes :=
      if isTextual contentType then filterBadWords tbl bytes0 "en" else bytes0
    let blob2 : BlobStore := (filename, bytes, contentType) :: blob
    match jsTruthyStr fileIdQ with
    | some fid =>
      let file := db.files.filter (fun f => f.file_id == fid)
      match file.head? with
      | none => (.error (.notFound "File not found"), db, blob2)
      | some f0 =>
        let updRow := fun (f : FileRow) =>
          { f with
            file_name := filename
            file_path := blobUrl filename
            file_type := some contentType
            file_size_bytes := some bytes_length
            uploader_id := user_id
            workspace_id := workspace_id
            version := some (jsOrVersionOne f0.version) }
        let files2 := db.files.map (fun f => if f.file_id == fid then updRow f else f)
        (.ok (updRow f0), { db with files := files2 }, blob2)
    | none =>
      let newRow : FileRow :=
        { file_id := newId
          workspace_id := workspace_id
          uploader_id := user_id
          file_name := filename
          file_path := blobUrl filename
          file_type := some contentType
          file_size_bytes := some bytes_length
          version := some 1 }
      (.ok newRow, { db with files := db.files ++ [newRow] }, blob2)

/-- `GET /file` (files router, part_000 lines 198-229): user point lookup,
then the user's first `file_permissions` row (the query filters by
`user_id` only), then the file point lookup; returns `file_path`. -/
def getFileLocator (db : DB) (file_id user_id : String) : Except HErr String :=
  let user := (db.users.filter (fun u => u.user_id == user_id)).take 1
  match user.head? with
  | none => .error (.notFound "User not found")
  | some _ =>
    let permissions := (db.filePermissions.filter (fun p => p.user_id == user_id)).take 1
    match permissions.head? with
    | none => .error (.forbidden "User does not have permission to view files")
    | some p =>
      if !p.can_view then
        .error (.forbidden "User does not have permission to view files")
      else
        let file := (db.files.filter (fun f => f.file_id == file_id)).take 1
        match file.head? with
        | none => .error (.notFound "File not found")
        | some f => .ok f.file_path

/-- Set all five capability flags of a permission row to `b`. -/
def setAllCaps (b : Bool) (p : PermRow) : PermRow :=
  { p with can_view := b, can_edit := b, can_delete := b, can_share := b, can_download := b }

/-- `POST /members/manager/:id` (members router, part_001 lines 167-178):
set `is_manager = true` on the user row, then set all five capability
flags to `true` on every `file_permissions` row of that user. -/
def promoteManager (db : DB) (id : String) : DB :=
  { db with
    users := db.users.map (fun u => if u.user_id == id then { u with is_manager := true } else u)
    filePermissions := db.filePermissions.map
      (fun p => if p.user_id == id then setAllCaps true p else p) }

/-- `DELETE /members/manager/:id` (members router, part_001 lines 198-209):
set `is_manager = false` on the user row, then set all five capability
flags to `false` on every `file_permissions` row of that user. -/
def demoteManager (db : DB) (id : String) : DB :=
  { db with
    users := db.users.map (fun u => if u.user_id == id then { u with is_manager := false } else u)
    filePermissions := db.filePermissions.map
      (fun p => if p.user_id == id then setAllCaps false p else p) }

/-- The JSON body of `POST /permissions` / `PUT /permissions`: the five
capability flags and the permission id are optional in the schema. -/
structure PermBody where
  permission_id : Option String
  file_id : String
  user_id : String
  workspace_id : String
  can_view : Option Bool
  can_edit : Option Bool
  can_delete : Option Bool
  can_share : Option Bool
  can_download : Option Bool
  granted_by_id : String
  deriving DecidableEq

/-- `POST /permissions` (permission.ts lines 68-111; the part_000 variant
at lines 437-481 is the same logic over snake_case column names): look up
the grantor by `granted_by_id` with `limit(1)`; the `if (!user)` guard is
dead (a query result array is truthy), so an absent grantor crashes on
`user[0].is_manager`; a non-manager grantor gets HTTP 400; otherwise the
row is inserted with absent capabilities defaulting to `false`. -/
def grantPermission (db : DB) (body : PermBody) (newId : String) :
    Except HErr PermRow × DB :=
  let user := (db.users.filter (fun u => u.user_id == body.granted_by_id)).take 1
  if jsFalsyList user then (.error (.notFound "User not found"), db)
  else
    match user.head? with
    | none => (.error .typeError, db)
    | some u =>
      if !u.is_manager then (.error (.badRequest "User is not a manager"), db)
      else
        let row : PermRow :=
          { permission_id := newId
            file_id := body.file_id
            user_id := body.user_id
            workspace_id := body.workspace_id
            can_view := body.can_view.getD false
            can_edit := body.can_edit.getD false
            can_delete := body.can_delete.getD false
            can_share := body.can_share.getD false
            can_download := body.can_download.getD false
            granted_by_id := body.granted_by_id }
        (.ok row, { db with filePermissions := db.filePermissions ++ [row] })

/-- `.set(body)` of `PUT /permissions`: overwrite the row's columns with
the body's present fields (absent optional fields are skipped). -/
def applyBody (body : PermBody) (p : PermRow) : PermRow :=
  { p with
    permission_id := body.permission_id.getD p.permission_id
    file_id := body.file_id
    user_id := body.user_id
    workspace_id := body.workspace_id
    can_view := body.can_view.getD p.can_view
    can_edit := body.can_edit.getD p.can_edit
    can_delete := body.can_delete.getD p.can_delete
    can_share := body.can_share.getD p.can_share
    can_download := body.can_download.getD p.can_download
    granted_by_id := body.granted_by_id }

/-- `PUT /permissions` (permission.ts lines 134-147): update the rows
whose `permission_id` equals `body.permissionId || ""`; the
`if (!permission)` guard on the `.returning()` array is dead, so a match
on zero rows answers 200 with an empty array. -/
def updatePermission (db : DB) (body : PermBody) :
    Except HErr (List PermRow) × DB :=
  let key := jsOrStr body.permission_id ""
  let perms2 := db.filePermissions.map
    (fun p => if p.permission_id == key then applyBody body p else p)
  let returned := (db.filePermissions.filter (fun p => p.permission_id == key)).map (applyBody body)
  if jsFalsyList returned then
    (.error (.notFound "Permission not found"), { db with filePermissions := perms2 })
  else
    (.ok returned, { db with filePermissions := perms2 })

/-- `DELETE /permissions/:id` (permission.ts lines 149-180): delete the
rows whose `permission_id` equals the path parameter and return them; no
user or manager check of any kind; the `if (!permission)` guard is dead. -/
def deletePermission (db : DB) (id : String) : Except HErr (List PermRow) × DB :=
  let deleted := db.filePermissions.filter (fun p => p.permission_id == id)
  let remaining := db.filePermissions.filter (fun p => !(p.permission_id == id))
  if jsFalsyList deleted then
    (.error (.notFound "Permission not found"), { db with filePermissions := remaining })
  else
    (.ok deleted, { db with filePermissions := remaining })

/-- `DELETE /permissions/:id`, part_000 variant (lines 529-571): the same
path parameter `id` is used both to look up a User row (whose
`is_manager` is then required) and as the `permission_id` to delete; the
`if (!user)` guard is dead, so when no user's id equals `id` the handler
crashes on `user[0].is_manager`. -/
def deletePermissionV0 (db : DB) (id : String) : Except HErr (List PermRow) × DB :=
  let user := (db.users.filter (fun u => u.user_id == id)).take 1
  if jsFalsyList user then (.error (.notFound "User not found"), db)
  else
    match user.head? with
    | none => (.error .typeError, db)
    | some u =>
      if !u.is_manager then (.error (.badRequest "User is not a manager"), db)
      else
        let deleted := db.filePermissions.filter (fun p => p.permission_id == id)
        let remaining := db.filePermissions.filter (fun p => !(p.permission_id == id))
        (.ok deleted, { db with filePermissions := remaining })

/-! ## Spec-side definitions (for refinement comparison only)

These two definitions follow the words of the specification, not the
source; they exist to be compared against the source-derived
`filterBadWords`. -/

/-- One step of `collapseWs` (`r` is the collapse of `cs`): whitespace
before more whitespace is dropped, otherwise it becomes one space. -/
def collapseWsStep (c : Char) (cs : List Char) (r : List Char) : List Char :=
  if isWs c then
    match cs with
    | c2 :: _ => if isWs c2 then r else ' ' :: r
    | [] => ' ' :: r
  else c :: r

/-- Modelled from the spec's words: "every run of whitespace is collapsed
to a single space". -/
def collapseWs : List Char → List Char
  | [] => []
  | c :: cs => collapseWsStep c cs (collapseWs cs)

/-- Modelled from the spec's words: the filter's normalised form of a text
in which no blocklisted word occurs — "the entire text is lowercased,
every occurrence of the characters . ' , | ! ? is removed, every run of
whitespace is collapsed to a single space". -/
def specNormalize (s : List Char) : List Char :=
  collapseWs (lowerL (stripL s))

/-! ## Shape predicates used by the filter proofs -/

/-- A token is whitespace-free (true of every token `split(/\s+/)`
produces, and preserved by masking). -/
def okTok (t : List Char) : Prop := ∀ c ∈ t, isWs c = false

/-- Every element of the list that has a predecessor and a successor is
nonempty — the shape of a `split(/\s+/)` result, where empty tokens occur
only at the two ends. -/
def midNonEmpty : List (List Char) → Prop
  | _ :: b :: c :: l => b ≠ [] ∧ midNonEmpty (b :: c :: l)
  | _ => True

/-! ## Concrete fixtures used by witnesses and counterexamples -/

/-- A bad-word table with no language entries. -/
def tblEmpty : BadTable := fun _ => none

/-- A bad-word table whose "en" blocklist is `["bad"]`. -/
def tblEn : BadTable := fun l => if l == "en" then some [['b', 'a', 'd']] else none

/-- A pathological but well-typed bad-word table whose "en" blocklist
contains the empty string and the mask of the empty string. -/
def tblPatho : BadTable :=
  fun l => if l == "en" then
    some [[], ['u', 'n', 'd', 'e', 'f', 'i', 'n', 'e', 'd', '*', '*', '*', '*', '*',
              'u', 'n', 'd', 'e', 'f', 'i', 'n', 'e', 'd']]
  else none

def fileC1 : FileRow :=
  { file_id := "f1", workspace_id := "w1", uploader_id := "u1",
    file_name := "a.txt", file_path := "https://blob.local/a.txt",
    file_type := some "application/pdf", file_size_bytes := some 2,
    version := some 1 }

def dbC1 : DB :=
  { users := [{ user_id := "u1", is_active := true, is_manager := true }],
    files := [fileC1], filePermissions := [] }

def userC2 : UserRow := { user_id := "u1", is_active := true, is_manager := false }

def permC2 : PermRow :=
  { permission_id := "p1", file_id := "f2", user_id := "u1", workspace_id := "w1",
    can_view := true, can_edit := false, can_delete := false, can_share := false,
    can_download := false, granted_by_id := "m1" }

def fileC2 : FileRow :=
  { file_id := "f1", workspace_id := "w1", uploader_id := "u9",
    file_name := "r.txt", file_path := "locator-f1", file_type := none,
    file_size_bytes := none, version := some 1 }

def dbC2 : DB := { users := [userC2], files := [fileC2], filePermissions := [permC2] }

def permC3 : PermRow :=
  { permission_id := "p3", file_id := "f3", user_id := "u3", workspace_id := "w9",
    can_view := false, can_edit := false, can_delete := false, can_share := false,
    can_download := false, granted_by_id := "m1" }

def dbC3 : DB :=
  { users := [{ user_id := "u3", is_active := true, is_manager := false }],
    files := [], filePermissions := [permC3] }

def userC4 : UserRow := { user_id := "u2", is_active := true, is_manager := false }

def dbC4 : DB := { users := [userC4], files := [], filePermissions := [] }

def bodyC4 : PermBody :=
  { permission_id := none, file_id := "f1", user_id := "u2", workspace_id := "w1",
    can_view := some true, can_edit := none, can_delete := none, can_share := none,
    can_download := none, granted_by_id := "u2" }

def bodyC5 : PermBody :=
  { permission_id := none, file_id := "f1", user_id := "u2", workspace_id := "w1",
    can_view := some true, can_edit := none, can_delete := none, can_share := none,
    can_download := none, granted_by_id := "ghost" }

def userC6 : UserRow := { user_id := "u5", is_active := true, is_manager := false }

def permC6 : PermRow :=
  { permission_id := "p1", file_id := "f1", user_id := "u5", workspace_id := "w1",
    can_view := true, can_edit := false, can_delete := false, can_share := false,
    can_download := false, granted_by_id := "m1" }

def dbC6 : DB := { users := [userC6], files := [], filePermissions := [permC6] }

def permC7 : PermRow :=
  { permission_id := "p9", file_id := "f1", user_id := "u1", workspace_id := "w1",
    can_view := false, can_edit := false, can_delete := false, can_share := false,
    can_download := false, granted_by_id := "m1" }

def dbC7 : DB :=
  { users := [{ user_id := "m1", is_active := true, is_manager := true }],
    files := [], filePermissions := [permC7] }

def bodyC7 : PermBody :=
  { permission_id := none, file_id := "f1", user_id := "u1", workspace_id := "w1",
    can_view := some true, can_edit := none, can_delete := none, can_share := none,
    can_download := none, granted_by_id := "m1" }

def dbC9 : DB :=
  { users := [{ user_id := "u1", is_active := true, is_manager := false }],
    files := [], filePermissions := [] }

/-! ## Helper lemmas -/

/-- `limit(1)` followed by `[0]`: taking one element does not change the
head. -/
theorem take_one_head? {α : Type} (l : List α) : (l.take 1).head? = l.head? := by
  cases l <;> rfl

/-- The head of a filtered list is the first element satisfying the
predicate. -/
theorem filter_head?_find? {α : Type} (l : List α) (p : α → Bool) :
    (l.filter p).head? = l.find? p := by
  induction l with
  | nil => rfl
  | cons a l ih => by_cases h : p a <;> simp [List.filter_cons, List.find?_cons, h, ih]

/-- `Char.ofNat` evaluates to the given code point below the surrogate
range. -/
theorem charToNat_ofNat (n : Nat) (h : n < 55296) : (Char.ofNat n).toNat = n := by
  unfold Char.ofNat
  rw [dif_pos (by omega)]
  rfl

/-- The code point of `charLower c`. -/
theorem charLower_toNat (c : Char) :
    (charLower c).toNat = if 65 ≤ c.toNat ∧ c.toNat ≤ 90 then c.toNat + 32 else c.toNat := by
  unfold charLower
  by_cases h : 65 ≤ c.toNat ∧ c.toNat ≤ 90
  · rw [if_pos (by simp [h.1, h.2]), if_pos h, charToNat_ofNat _ (by omega)]
  · rw [if_neg (by simpa using fun h1 h2 => h ⟨h1, h2⟩), if_neg h]

/-- `charLower` fixes every character outside the uppercase ASCII range. -/
theorem charLower_eq_self (c : Char) (h : ¬(65 ≤ c.toNat ∧ c.toNat ≤ 90)) :
    charLower c = c := by
  unfold charLower
  rw [if_neg (by simpa using fun h1 h2 => h ⟨h1, h2⟩)]

/-- Lower-casing is idempotent. -/
theorem charLower_idem (c : Char) : charLower (charLower c) = charLower c := by
  apply charLower_eq_self
  rw [charLower_toNat c]
  split <;> omega

/-- Characterisation of the stripped character set by code point. -/
theorem isStripped_toNat (c : Char) :
    isStripped c = true ↔ (c.toNat = 46 ∨ c.toNat = 39 ∨ c.toNat = 44 ∨
      c.toNat = 124 ∨ c.toNat = 33 ∨ c.toNat = 63) := by
  unfold isStripped
  simp [or_assoc]

/-- Lower-casing neither creates nor destroys stripped characters. -/
theorem isStripped_charLower (c : Char) : isStripped (charLower c) = isStripped c := by
  by_cases h : 65 ≤ c.toNat ∧ c.toNat ≤ 90
  · have h1 : isStripped (charLower c) = false := by
      rw [Bool.eq_false_iff]
      intro hs
      rw [isStripped_toNat, charLower_toNat, if_pos h] at hs
      omega
    have h0 : isStripped c = false := by
      rw [Bool.eq_false_iff]
      intro hs
      rw [isStripped_toNat] at hs
      omega
    rw [h1, h0]
  · rw [charLower_eq_self c h]

/-! ## Lemmas about `splitWs`, `joinTok` and `collapseWs` -/

/-- Splitting a whitespace character followed by more whitespace skips the
character (runs collapse). -/
theorem splitWs_ws_ws (c c2 : Char) (cs : List Char) (h : isWs c = true)
    (h2 : isWs c2 = true) : splitWs (c :: c2 :: cs) = splitWs (c2 :: cs) := by
  show splitWsStep c (c2 :: cs) (splitWs (c2 :: cs)) = splitWs (c2 :: cs)
  simp [splitWsStep, h, h2]

/-- Splitting a whitespace character followed by a non-whitespace
character emits an empty token. -/
theorem splitWs_ws_nonws (c c2 : Char) (cs : List Char) (h : isWs c = true)
    (h2 : isWs c2 = false) :
    splitWs (c :: c2 :: cs) = [] :: splitWs (c2 :: cs) := by
  show splitWsStep c (c2 :: cs) (splitWs (c2 :: cs)) = [] :: splitWs (c2 :: cs)
  simp [splitWsStep, h, h2]

/-- Splitting a single whitespace character yields two empty tokens. -/
theorem splitWs_ws_single (c : Char) (h : isWs c = true) :
    splitWs [c] = [[], []] := by
  show splitWsStep c [] (splitWs []) = [[], []]
  simp [splitWsStep, h, splitWs]

/-- Splitting after a non-whitespace character prepends it to the first
token. -/
theorem splitWs_nonws (c : Char) (cs : List Char) (h : isWs c = false)
    (t : List Char) (ts : List (List Char)) (hs : splitWs cs = t :: ts) :
    splitWs (c :: cs) = (c :: t) :: ts := by
  show splitWsStep c cs (splitWs cs) = (c :: t) :: ts
  simp [splitWsStep, h, hs]

/-- A split never produces the empty list of tokens. -/
theorem splitWs_ne_nil (s : List Char) : splitWs s ≠ [] := by
  induction s with
  | nil => simp [splitWs]
  | cons c cs ih =>
    cases cs with
    | nil =>
      by_cases h : isWs c
      · rw [splitWs_ws_single c h]; simp
      · rw [splitWs_nonws c [] (by simpa using h) [] [] rfl]; simp
    | cons c2 cs2 =>
      by_cases h : isWs c
      · by_cases h2 : isWs c2
        · rw [splitWs_ws_ws c c2 cs2 h h2]; exact ih
        · rw [splitWs_ws_nonws c c2 cs2 h (by simpa using h2)]; simp
      · rcases hs : splitWs (c2 :: cs2) with _ | ⟨t, ts⟩
        · exact absurd hs ih
        · rw [splitWs_nonws c _ (by simpa using h) t ts hs]; simp

/-- Joining a single token is the token itself. -/
theorem joinTok_single (t : List Char) : joinTok [t] = t := by
  simp [joinTok, List.intercalate]

/-- Joining a nonempty tail inserts one separating space. -/
theorem joinTok_cons (t : List Char) (l : List (List Char)) (h : l ≠ []) :
    joinTok (t :: l) = t ++ ' ' :: joinTok l := by
  cases l with
  | nil => exact absurd rfl h
  | cons t2 l2 => simp [joinTok, List.intercalate]


/-- A character prepended to the first token is prepended to the join. -/
theorem joinTok_cons_cons (c : Char) (t : List Char) (ts : List (List Char)) :
    joinTok ((c :: t) :: ts) = c :: joinTok (t :: ts) := by
  cases ts with
  | nil => rw [joinTok_single, joinTok_single]
  | cons t2 ts2 =>
    rw [joinTok_cons (c :: t) (t2 :: ts2) (by simp), joinTok_cons t (t2 :: ts2) (by simp)]
    simp

/-- A leading empty token joins to a leading space. -/
theorem joinTok_nil_cons (l : List (List Char)) (h : l ≠ []) :
    joinTok ([] :: l) = ' ' :: joinTok l := by
  rw [joinTok_cons _ _ h]
  rfl

/-- Splitting on whitespace runs and re-joining with single spaces is
exactly the spec's "collapse every whitespace run to a single space". -/
theorem joinTok_splitWs (s : List Char) : joinTok (splitWs s) = collapseWs s := by
  induction s with
  | nil => simp [splitWs, collapseWs, joinTok, List.intercalate]
  | cons c cs ih =>
    cases cs with
    | nil =>
      by_cases h : isWs c
      · rw [splitWs_ws_single c h]
        simp [collapseWs, collapseWsStep, h, joinTok, List.intercalate]
      · rw [splitWs_nonws c [] (by simpa using h) [] [] rfl]
        simp [collapseWs, collapseWsStep, h, joinTok, List.intercalate]
    | cons c2 cs2 =>
      by_cases h : isWs c
      · by_cases h2 : isWs c2
        · rw [splitWs_ws_ws c c2 cs2 h h2, ih]
          conv_rhs => rw [collapseWs]
          simp [collapseWsStep, h, h2]
        · rw [splitWs_ws_nonws c c2 cs2 h (by simpa using h2),
             joinTok_nil_cons _ (splitWs_ne_nil _), ih]
          conv_rhs => rw [collapseWs]
          simp [collapseWsStep, h, h2]
      · rcases hs : splitWs (c2 :: cs2) with _ | ⟨t, ts⟩
        · exact absurd hs (splitWs_ne_nil _)
        · rw [splitWs_nonws c _ (by simpa using h) t ts hs, joinTok_cons_cons, ← hs, ih]
          conv_rhs => rw [collapseWs]
          simp [collapseWsStep, h]

/-- A pointwise-fixed map is the identity. -/
theorem map_fixed {α : Type} (l : List α) (f : α → α) (h : ∀ a ∈ l, f a = a) :
    l.map f = l := by
  induction l with
  | nil => rfl
  | cons a l ih => simp [h a (by simp), ih (fun x hx => h x (by simp [hx]))]

/-- Tokens produced by a split contain no whitespace characters. -/
theorem mem_splitWs_noWs (s : List Char) :
    ∀ t ∈ splitWs s, ∀ c ∈ t, isWs c = false := by
  induction s with
  | nil =>
    intro t ht c hc
    simp [splitWs] at ht
    subst ht
    simp at hc
  | cons a cs ih =>
    intro t ht c hc
    by_cases h : isWs a
    · cases cs with
      | nil =>
        rw [splitWs_ws_single a h] at ht
        simp at ht
        subst ht
        simp at hc
      | cons c2 cs2 =>
        by_cases h2 : isWs c2
        · rw [splitWs_ws_ws a c2 cs2 h h2] at ht
          exact ih t ht c hc
        · rw [splitWs_ws_nonws a c2 cs2 h (by simpa using h2)] at ht
          rcases List.mem_cons.mp ht with rfl | ht2
          · simp at hc
          · exact ih t ht2 c hc
    · rcases hs : splitWs cs with _ | ⟨t0, ts0⟩
      · exact absurd hs (splitWs_ne_nil _)
      · rw [splitWs_nonws a cs (by simpa using h) t0 ts0 hs] at ht
        rcases List.mem_cons.mp ht with rfl | ht2
        · rcases List.mem_cons.mp hc with rfl | hc2
          · simpa using h
          · exact ih t0 (by rw [hs]; exact List.mem_cons_self _ _) c hc2
        · exact ih t (by rw [hs]; exact List.mem_cons_of_mem _ ht2) c hc

/-- Characters of split tokens come from the split string. -/
theorem mem_splitWs_mem (s : List Char) :
    ∀ t ∈ splitWs s, ∀ c ∈ t, c ∈ s := by
  induction s with
  | nil =>
    intro t ht c hc
    simp [splitWs] at ht
    subst ht
    simp at hc
  | cons a cs ih =>
    intro t ht c hc
    by_cases h : isWs a
    · cases cs with
      | nil =>
        rw [splitWs_ws_single a h] at ht
        simp at ht
        subst ht
        simp at hc
      | cons c2 cs2 =>
        by_cases h2 : isWs c2
        · rw [splitWs_ws_ws a c2 cs2 h h2] at ht
          exact List.mem_cons_of_mem a (ih t ht c hc)
        · rw [splitWs_ws_nonws a c2 cs2 h (by simpa using h2)] at ht
          rcases List.mem_cons.mp ht with rfl | ht2
          · simp at hc
          · exact List.mem_cons_of_mem a (ih t ht2 c hc)
    · rcases hs : splitWs cs with _ | ⟨t0, ts0⟩
      · exact absurd hs (splitWs_ne_nil _)
      · rw [splitWs_nonws a cs (by simpa using h) t0 ts0 hs] at ht
        rcases List.mem_cons.mp ht with rfl | ht2
        · rcases List.mem_cons.mp hc with rfl | hc2
          · exact List.mem_cons_self _ _
          · exact List.mem_cons_of_mem a
              (ih t0 (by rw [hs]; exact List.mem_cons_self _ _) c hc2)
        · exact List.mem_cons_of_mem a
            (ih t (by rw [hs]; exact List.mem_cons_of_mem _ ht2) c hc)

/-- The first token of a split of a string headed by a non-whitespace
character carries that character. -/
theorem splitWs_head_nonempty (c : Char) (cs : List Char) (h : isWs c = false) :
    ∃ t0 ts0, splitWs (c :: cs) = (c :: t0) :: ts0 := by
  rcases hs : splitWs cs with _ | ⟨t, ts⟩
  · exact absurd hs (splitWs_ne_nil _)
  · exact ⟨t, ts, splitWs_nonws c cs h t ts hs⟩

/-- `midNonEmpty` ignores the first element. -/
theorem midNonEmpty_cons (x y : List Char) (l : List (List Char)) :
    midNonEmpty (x :: l) ↔ midNonEmpty (y :: l) := by
  cases l with
  | nil => simp [midNonEmpty]
  | cons b l2 =>
    cases l2 with
    | nil => simp [midNonEmpty]
    | cons d l3 => simp [midNonEmpty]

/-- Split results have nonempty internal tokens. -/
theorem splitWs_midNonEmpty (s : List Char) : midNonEmpty (splitWs s) := by
  induction s with
  | nil => simp [splitWs, midNonEmpty]
  | cons a cs ih =>
    by_cases h : isWs a
    · cases cs with
      | nil =>
        rw [splitWs_ws_single a h]
        simp [midNonEmpty]
      | cons c2 cs2 =>
        by_cases h2 : isWs c2
        · rw [splitWs_ws_ws a c2 cs2 h h2]
          exact ih
        · rw [splitWs_ws_nonws a c2 cs2 h (by simpa using h2)]
          obtain ⟨t0, ts0, heq⟩ := splitWs_head_nonempty c2 cs2 (by simpa using h2)
          rw [heq]
          rw [heq] at ih
          cases ts0 with
          | nil => simp [midNonEmpty]
          | cons u us => exact ⟨List.cons_ne_nil _ _, ih⟩
    · rcases hs : splitWs cs with _ | ⟨t, ts⟩
      · exact absurd hs (splitWs_ne_nil _)
      · rw [splitWs_nonws a cs (by simpa using h) t ts hs]
        rw [hs] at ih
        exact (midNonEmpty_cons (a :: t) t ts).mpr ih

/-- A map that preserves emptiness preserves `midNonEmpty`. -/
theorem midNonEmpty_map (f : List Char → List Char)
    (hf : ∀ t, f t = [] ↔ t = []) (l : List (List Char)) :
    midNonEmpty l → midNonEmpty (l.map f) := by
  induction l with
  | nil => intro _; simp [midNonEmpty]
  | cons a l ih =>
    intro hl
    cases l with
    | nil => simp [midNonEmpty]
    | cons b l2 =>
      cases l2 with
      | nil => simp [midNonEmpty]
      | cons d l3 =>
        obtain ⟨hb, hrest⟩ := hl
        exact ⟨fun hfb => hb ((hf b).mp hfb), ih hrest⟩

/-- A whitespace-free token splits to itself. -/
theorem splitWs_okTok_single (t : List Char) (h : okTok t) : splitWs t = [t] := by
  induction t with
  | nil => rfl
  | cons c t ih =>
    have hc : isWs c = false := h c (by simp)
    have ht : okTok t := fun x hx => h x (by simp [hx])
    rw [splitWs_nonws c t hc t [] (ih ht)]

/-- Splitting a whitespace-free prefix followed by anything prepends the
prefix to the first token of the rest. -/
theorem splitWs_append (t : List Char) (h : okTok t) (rest : List Char)
    (hd : List Char) (tl : List (List Char)) (hs : splitWs rest = hd :: tl) :
    splitWs (t ++ rest) = (t ++ hd) :: tl := by
  induction t with
  | nil => simpa using hs
  | cons c t ih =>
    have hc : isWs c = false := h c (by simp)
    have ht : okTok t := fun x hx => h x (by simp [hx])
    rw [List.cons_append, splitWs_nonws c (t ++ rest) hc (t ++ hd) tl (ih ht)]
    rfl

/-- Splitting a single space in front of a string that is empty or starts
with a non-whitespace character emits one empty token. -/
theorem splitWs_space_cons (r : List Char)
    (hr : r = [] ∨ ∃ c2 cs2, r = c2 :: cs2 ∧ isWs c2 = false) :
    splitWs (' ' :: r) = [] :: splitWs r := by
  rcases hr with rfl | ⟨c2, cs2, rfl, hc2⟩
  · rw [splitWs_ws_single ' ' (by decide)]
    rfl
  · exact splitWs_ws_nonws ' ' c2 cs2 (by decide) hc2

/-- Round trip: splitting the single-space join of a token list of split
shape (no whitespace inside tokens, internal tokens nonempty) recovers the
list. -/
theorem splitWs_joinTok (l : List (List Char)) (hne : l ≠ [])
    (hok : ∀ t ∈ l, okTok t) (hmid : midNonEmpty l) :
    splitWs (joinTok l) = l := by
  induction l with
  | nil => exact absurd rfl hne
  | cons t l ih =>
    cases l with
    | nil =>
      rw [joinTok_single]
      exact splitWs_okTok_single t (hok t (by simp))
    | cons t2 l2 =>
      rw [joinTok_cons t (t2 :: l2) (by simp)]
      have hok2 : ∀ u ∈ t2 :: l2, okTok u := fun u hu => hok u (by simp [hu])
      have hmid2 : midNonEmpty (t2 :: l2) := by
        cases l2 with
        | nil => simp [midNonEmpty]
        | cons d l3 => exact hmid.2
      have hrest := ih (by simp) hok2 hmid2
      have hshape : joinTok (t2 :: l2) = [] ∨
          ∃ c2 cs2, joinTok (t2 :: l2) = c2 :: cs2 ∧ isWs c2 = false := by
        cases t2 with
        | nil =>
          cases l2 with
          | nil =>
            left
            rw [joinTok_single]
          | cons d l3 => exact absurd rfl hmid.1
        | cons c2 t2' =>
          right
          exact ⟨c2, joinTok (t2' :: l2), joinTok_cons_cons c2 t2' l2,
            hok (c2 :: t2') (by simp) c2 (by simp)⟩
      rw [splitWs_append t (hok t (by simp)) (' ' :: joinTok (t2 :: l2)) []
          (splitWs (joinTok (t2 :: l2))) (splitWs_space_cons _ hshape)]
      rw [hrest]
      simp

/-! ## Lemmas about masking and the token step -/

/-- The mask of a word is never empty. -/
theorem maskWord_ne_nil (w : List Char) : maskWord w ≠ [] := by
  unfold maskWord jsIndex
  cases w.get? 0 <;> simp

/-- The mask of a nonempty word is its first character, five stars, and
its last character. -/
theorem maskWord_shape (w : List Char) (hw : w ≠ []) :
    ∃ x y, x ∈ w ∧ y ∈ w ∧ maskWord w = [x, '*', '*', '*', '*', '*', y] := by
  cases w with
  | nil => exact absurd rfl hw
  | cons a w' =>
    have hlt : (a :: w').length - 1 < (a :: w').length := by simp
    have h1 : (a :: w').get? ((a :: w').length - 1)
        = some ((a :: w').get ⟨(a :: w').length - 1, hlt⟩) := List.get?_eq_get hlt
    refine ⟨a, (a :: w').get ⟨(a :: w').length - 1, hlt⟩, by simp,
      List.get_mem _ _ _, ?_⟩
    simp [maskWord, jsIndex, h1]

/-- Masking a string that already has mask shape returns it unchanged. -/
theorem maskWord_mask (x y : Char) :
    maskWord [x, '*', '*', '*', '*', '*', y] = [x, '*', '*', '*', '*', '*', y] := rfl

/-- Under a blocklist without the empty string, the empty token is never a
bad word. -/
theorem checkBadWord_nil (tbl : BadTable) (lang : String)
    (H : ∀ ws, tbl lang = some ws → [] ∉ ws) :
    checkBadWord tbl [] lang = false := by
  unfold checkBadWord
  cases htbl : tbl lang with
  | none => rfl
  | some ws =>
    have : ([] : List Char) ∉ ws := H ws htbl
    simpa [trimL, lowerL] using this

/-- The token step maps only the empty token to the empty token (for a
blocklist without the empty string). -/
theorem filterStep_eq_nil_iff (tbl : BadTable) (lang : String)
    (H : ∀ ws, tbl lang = some ws → [] ∉ ws) (w : List Char) :
    filterStep tbl lang w = [] ↔ w = [] := by
  constructor
  · intro h
    by_contra hw
    unfold filterStep at h
    by_cases hb : checkBadWord tbl w lang
    · rw [if_pos hb] at h
      exact maskWord_ne_nil w h
    · rw [if_neg hb] at h
      exact hw h
  · intro h
    subst h
    unfold filterStep
    rw [checkBadWord_nil tbl lang H]
    rfl

/-- Characters of a stepped token come from the token or are stars. -/
theorem filterStep_subset (tbl : BadTable) (lang : String)
    (H : ∀ ws, tbl lang = some ws → [] ∉ ws) (w : List Char) (c : Char)
    (hc : c ∈ filterStep tbl lang w) : c ∈ w ∨ c = '*' := by
  unfold filterStep at hc
  by_cases hb : checkBadWord tbl w lang
  · rw [if_pos hb] at hc
    have hw : w ≠ [] := by
      intro h
      subst h
      rw [checkBadWord_nil tbl lang H] at hb
      exact absurd hb (by simp)
    obtain ⟨x, y, hx, hy, heq⟩ := maskWord_shape w hw
    rw [heq] at hc
    simp at hc
    rcases hc with rfl | rfl | rfl
    · exact Or.inl hx
    · exact Or.inr rfl
    · exact Or.inl hy
  · rw [if_neg hb] at hc
    exact Or.inl hc

/-- The token step preserves whitespace-freeness. -/
theorem filterStep_okTok (tbl : BadTable) (lang : String)
    (H : ∀ ws, tbl lang = some ws → [] ∉ ws) (w : List Char)
    (h : okTok w) : okTok (filterStep tbl lang w) := by
  intro c hc
  rcases filterStep_subset tbl lang H w c hc with h1 | rfl
  · exact h c h1
  · decide

/-- The token step is idempotent (for a blocklist without the empty
string): a mask has exactly seven characters, so re-masking it rebuilds
the same string. -/
theorem filterStep_idem (tbl : BadTable) (lang : String)
    (H : ∀ ws, tbl lang = some ws → [] ∉ ws) (w : List Char) :
    filterStep tbl lang (filterStep tbl lang w) = filterStep tbl lang w := by
  by_cases hb : checkBadWord tbl w lang
  · have hw : w ≠ [] := by
      intro h
      subst h
      rw [checkBadWord_nil tbl lang H] at hb
      exact absurd hb (by simp)
    obtain ⟨x, y, hx, hy, heq⟩ := maskWord_shape w hw
    unfold filterStep
    rw [if_pos hb, heq]
    by_cases hb2 : checkBadWord tbl [x, '*', '*', '*', '*', '*', y] lang
    · rw [if_pos hb2]
      exact maskWord_mask x y
    · rw [if_neg hb2]
  · unfold filterStep
    rw [if_neg hb, if_neg hb]

/-- Every character of a join is a space or comes from some token. -/
theorem mem_joinTok (l : List (List Char)) (c : Char) (hc : c ∈ joinTok l) :
    c = ' ' ∨ ∃ t ∈ l, c ∈ t := by
  induction l with
  | nil => simp [joinTok, List.intercalate] at hc
  | cons t l ih =>
    cases l with
    | nil =>
      rw [joinTok_single] at hc
      exact Or.inr ⟨t, by simp, hc⟩
    | cons t2 l2 =>
      rw [joinTok_cons t (t2 :: l2) (by simp)] at hc
      rcases List.mem_append.mp hc with h1 | h2
      · exact Or.inr ⟨t, by simp, h1⟩
      · rcases List.mem_cons.mp h2 with rfl | h3
        · exact Or.inl rfl
        · rcases ih h3 with h4 | ⟨t3, ht3, hc3⟩
          · exact Or.inl h4
          · exact Or.inr ⟨t3, by simp [ht3], hc3⟩

/-- A string of lower-fixed characters is fixed by `lowerL`. -/
theorem lowerL_fixed (s : List Char) (h : ∀ c ∈ s, charLower c = c) :
    lowerL s = s := map_fixed s charLower h

/-- A string without stripped characters is fixed by `stripL`. -/
theorem stripL_fixed (s : List Char) (h : ∀ c ∈ s, isStripped c = false) :
    stripL s = s := by
  unfold stripL
  rw [List.filter_eq_self]
  intro a ha
  simp [h a ha]

/-- Characters of a lower-cased string are lower-fixed. -/
theorem mem_lowerL_lower (s : List Char) (c : Char) (hc : c ∈ lowerL s) :
    charLower c = c := by
  obtain ⟨c0, _, rfl⟩ := List.mem_map.mp hc
  exact charLower_idem c0

/-- Characters of a lower-cased stripped string are not stripped. -/
theorem mem_lowerL_stripL_notStripped (s : List Char) (c : Char)
    (hc : c ∈ lowerL (stripL s)) : isStripped c = false := by
  obtain ⟨c0, hc0, rfl⟩ := List.mem_map.mp hc
  rw [isStripped_charLower]
  have := (List.mem_filter.mp hc0).2
  simpa using this

/-- Every character of a filter output is lower-fixed and unstripped. -/
theorem filterBadWords_chars (tbl : BadTable) (lang : String) (s : List Char)
    (H : ∀ ws, tbl lang = some ws → [] ∉ ws) (c : Char)
    (hc : c ∈ filterBadWords tbl s lang) :
    charLower c = c ∧ isStripped c = false := by
  unfold filterBadWords at hc
  rcases mem_joinTok _ c hc with rfl | ⟨t, ht, hct⟩
  · exact ⟨by decide, by decide⟩
  · obtain ⟨t0, ht0, rfl⟩ := List.mem_map.mp ht
    rcases filterStep_subset tbl lang H t0 c hct with h1 | rfl
    · have hmem : c ∈ lowerL (stripL s) := mem_splitWs_mem _ t0 ht0 c h1
      exact ⟨mem_lowerL_lower _ c hmem, mem_lowerL_stripL_notStripped _ c hmem⟩
    · exact ⟨by decide, by decide⟩

/-! ## Claim theorems (C1, C4, C5, C7 and the C2/C6 counterexamples) -/

/-- C1: every re-upload that supplies an `existingFileId` should set the
row's version to the previous version plus one.  The source computes
`file[0].version || 0 + 1`, which by operator precedence is `version || 1`:
re-uploading the version-1 file `f1` leaves its version at 1 instead of
advancing it to 2 (the first-upload half of the claim, `version = 1`, does
hold, as the second conjunct shows). -/
theorem reupload_version_not_incremented :
    fileC1.version = some 1
    ∧ (uploadFile tblEmpty dbC1 [] "u1" "w1" ['h', 'i'] (some "a.txt") (some "f1")
        (some "application/pdf") "n1").1.toOption.map FileRow.version = some (some 1)
    ∧ (uploadFile tblEmpty dbC1 [] "u1" "w1" ['h', 'i'] (some "b.txt") none
        (some "application/pdf") "n2").1.toOption.map FileRow.version = some (some 1) :=
  ⟨rfl, rfl, rfl⟩

/-- C4: when the grantor resolves to an existing user whose `is_manager`
is false, `POST /permissions` answers 400 ("User is not a manager") and
the permission table is unchanged. -/
theorem grant_nonmanager_rejected (db : DB) (body : PermBody) (newId : String)
    (u : UserRow)
    (hu : (db.users.filter (fun x => x.user_id == body.granted_by_id)).head? = some u)
    (hm : u.is_manager = false) :
    grantPermission db body newId = (.error (.badRequest "User is not a manager"), db) := by
  unfold grantPermission
  simp [jsFalsyList, take_one_head?, hu, hm]

/-- Witness for `grant_nonmanager_rejected` at the concrete store `dbC4`:
the non-manager `u2` grants to themselves and is rejected. -/
theorem grant_nonmanager_rejected_witness :
    grantPermission dbC4 bodyC4 "p1" = (.error (.badRequest "User is not a manager"), dbC4) :=
  grant_nonmanager_rejected dbC4 bodyC4 "p1" userC4 (by rfl) (by rfl)

/-- C5: when `grantedById` resolves to no user row, the handler is
expected to answer `NotFound`; instead the dead `if (!user)` guard is
skipped (a query result array is truthy even when empty) and the handler
crashes reading `user[0].is_manager`, surfaced as HTTP 500.  The
permission table is unchanged. -/
theorem grant_missing_grantor_type_error :
    grantPermission dbC4 bodyC5 "p1" = (.error .typeError, dbC4)
    ∧ ∀ u ∈ dbC4.users, u.user_id ≠ bodyC5.granted_by_id :=
  ⟨rfl, by decide⟩

/-- C7: `PUT /permissions` with an absent `permissionId` matches zero rows
(the key defaults to the empty string); the claim expects `NotFound`, but
the dead `if (!permission)` guard never fires on the empty `.returning()`
array, so the handler answers 200 with an empty array; no row is
modified. -/
theorem update_missing_id_silent_success :
    updatePermission dbC7 bodyC7 = (.ok [], dbC7)
    ∧ bodyC7.permission_id = none :=
  ⟨rfl, rfl⟩

/-- C2 counterexample: `GET /file` checks the user's first permission row
only by `user_id`, never by `file_id`.  In `dbC2` user `u1` holds a
`can_view` permission on file `f2` only, yet the locator of file `f1` is
returned, although no `(f1, u1)` permission row exists — falsifying the
claimed (file, user) iff. -/
theorem getFileLocator_ignores_file_id_cex :
    getFileLocator dbC2 "f1" "u1" = .ok "locator-f1"
    ∧ ∀ p ∈ dbC2.filePermissions, ¬(p.file_id = "f1" ∧ p.can_view = true) :=
  ⟨rfl, by decide⟩

/-- C6 counterexample: `DELETE /permissions/:id` (permission.ts) performs
no user lookup at all: in `dbC6`, whose only user is the non-manager `u5`,
deleting permission `p1` succeeds and removes the row, although the claim
requires the call to fail and the row to remain whenever the acting user
is not a manager. -/
theorem revoke_without_manager_cex :
    deletePermission dbC6 "p1"
      = (.ok [permC6], { users := [userC6], files := [], filePermissions := [] })
    ∧ ∀ u ∈ dbC6.users, u.is_manager = false :=
  ⟨rfl, by decide⟩

/-- C3: promoting a user (`POST /members/manager/:id`) sets `is_manager`
and turns all five capability flags on in every permission row of that
user — the update's only filter is `user_id`, so it spans all workspaces —
while rows of other users are untouched; demotion
(`DELETE /members/manager/:id`) symmetrically turns all five flags off. -/
theorem managerCascade_sets_all_caps (db : DB) (uid : String) :
    (∀ u ∈ (promoteManager db uid).users, u.user_id = uid → u.is_manager = true)
    ∧ (∀ p ∈ (promoteManager db uid).filePermissions, p.user_id = uid →
        p.can_view = true ∧ p.can_edit = true ∧ p.can_delete = true ∧
        p.can_share = true ∧ p.can_download = true)
    ∧ (∀ p ∈ db.filePermissions, p.user_id ≠ uid →
        p ∈ (promoteManager db uid).filePermissions)
    ∧ (∀ u ∈ (demoteManager db uid).users, u.user_id = uid → u.is_manager = false)
    ∧ (∀ p ∈ (demoteManager db uid).filePermissions, p.user_id = uid →
        p.can_view = false ∧ p.can_edit = false ∧ p.can_delete = false ∧
        p.can_share = false ∧ p.can_download = false)
    ∧ (∀ p ∈ db.filePermissions, p.user_id ≠ uid →
        p ∈ (demoteManager db uid).filePermissions) := by
  refine ⟨?_, ?_, ?_, ?_, ?_, ?_⟩
  · intro u hu hid
    simp only [promoteManager, List.mem_map] at hu
    obtain ⟨u0, hu0, heq⟩ := hu
    by_cases h : u0.user_id == uid
    · rw [if_pos h] at heq
      simp [← heq]
    · rw [if_neg h] at heq
      subst heq
      simp_all
  · intro p hp hid
    simp only [promoteManager, List.mem_map] at hp
    obtain ⟨p0, hp0, heq⟩ := hp
    by_cases h : p0.user_id == uid
    · rw [if_pos h] at heq
      simp [← heq, setAllCaps]
    · rw [if_neg h] at heq
      subst heq
      simp_all
  · intro p hp hne
    simp only [promoteManager, List.mem_map]
    exact ⟨p, hp, by rw [if_neg (by simpa using hne)]⟩
  · intro u hu hid
    simp only [demoteManager, List.mem_map] at hu
    obtain ⟨u0, hu0, heq⟩ := hu
    by_cases h : u0.user_id == uid
    · rw [if_pos h] at heq
      simp [← heq]
    · rw [if_neg h] at heq
      subst heq
      simp_all
  · intro p hp hid
    simp only [demoteManager, List.mem_map] at hp
    obtain ⟨p0, hp0, heq⟩ := hp
    by_cases h : p0.user_id == uid
    · rw [if_pos h] at heq
      simp [← heq, setAllCaps]
    · rw [if_neg h] at heq
      subst heq
      simp_all
  · intro p hp hne
    simp only [demoteManager, List.mem_map]
    exact ⟨p, hp, by rw [if_neg (by simpa using hne)]⟩

/-- Witness for `managerCascade_sets_all_caps`: promoting `u3` in `dbC3`
turns `can_view` on in the permission row `p3` of `u3`. -/
theorem managerCascade_sets_all_caps_witness :
    (setAllCaps true permC3).can_view = true :=
  ((managerCascade_sets_all_caps dbC3 "u3").2.1 (setAllCaps true permC3)
    (by decide) (by decide)).1

/-- C2 amended: the permission gate of `GET /file` is evaluated on the
user's first permission row in table order, selected by `user_id` alone
(the requested `file_id` plays no part); given that row has `can_view`,
the locator of any existing file is returned; the error taxonomy is:
user absent → 404, no permission row / first row lacks `can_view` → 403,
file absent → 404. -/
theorem getFileLocator_characterization (db : DB) (fid uid : String) :
    (db.users.find? (fun u => u.user_id == uid) = none →
      getFileLocator db fid uid = .error (.notFound "User not found"))
    ∧ ((db.users.find? (fun u => u.user_id == uid)).isSome →
        db.filePermissions.find? (fun p => p.user_id == uid) = none →
        getFileLocator db fid uid
          = .error (.forbidden "User does not have permission to view files"))
    ∧ (∀ pr, (db.users.find? (fun u => u.user_id == uid)).isSome →
        db.filePermissions.find? (fun p => p.user_id == uid) = some pr →
        pr.can_view = false →
        getFileLocator db fid uid
          = .error (.forbidden "User does not have permission to view files"))
    ∧ (∀ pr, (db.users.find? (fun u => u.user_id == uid)).isSome →
        db.filePermissions.find? (fun p => p.user_id == uid) = some pr →
        pr.can_view = true →
        ((db.files.find? (fun f => f.file_id == fid) = none →
            getFileLocator db fid uid = .error (.notFound "File not found"))
         ∧ (∀ f, db.files.find? (fun f2 => f2.file_id == fid) = some f →
              getFileLocator db fid uid = .ok f.file_path))) := by
  unfold getFileLocator
  simp only [take_one_head?, filter_head?_find?]
  refine ⟨fun hU => by simp [hU], fun hU hP => ?_, fun pr hU hP hv => ?_,
          fun pr hU hP hv => ?_⟩
  · obtain ⟨u, hu⟩ := Option.isSome_iff_exists.mp hU
    simp [hu, hP]
  · obtain ⟨u, hu⟩ := Option.isSome_iff_exists.mp hU
    simp [hu, hP, hv]
  · obtain ⟨u, hu⟩ := Option.isSome_iff_exists.mp hU
    exact ⟨fun hF => by simp [hu, hP, hv, hF], fun f hF => by simp [hu, hP, hv, hF]⟩

/-- Witness for `getFileLocator_characterization` at `dbC2`: user `u1`
with a viewable first permission row reads the locator of the existing
file `f1`. -/
theorem getFileLocator_characterization_witness :
    getFileLocator dbC2 "f1" "u1" = .ok fileC2.file_path :=
  ((getFileLocator_characterization dbC2 "f1" "u1").2.2.2 permC2
    (by rfl) (by rfl) (by rfl)).2 fileC2 (by rfl)

/-- C6 amended: `DELETE /permissions/:id` (permission.ts) deletes every
row whose `permission_id` equals the path parameter and returns them,
consulting no user at all — replacing the whole `users` table does not
change the outcome; the part_000 variant instead looks up a *user* row
keyed by the same path parameter (there is no separate acting-user
parameter) and, when no user id equals the permission id, crashes with a
TypeError, leaving the row in place. -/
theorem revoke_unconditional_delete (db : DB) (id : String) :
    ((deletePermission db id).1
        = .ok (db.filePermissions.filter (fun p => p.permission_id == id)))
    ∧ (∀ p, p ∈ (deletePermission db id).2.filePermissions ↔
        p ∈ db.filePermissions ∧ p.permission_id ≠ id)
    ∧ (∀ us2 : List UserRow,
        deletePermission { users := us2, files := db.files,
                           filePermissions := db.filePermissions } id
          = ((deletePermission db id).1,
             { users := us2, files := db.files,
               filePermissions := (deletePermission db id).2.filePermissions }))
    ∧ (db.users.find? (fun u => u.user_id == id) = none →
        deletePermissionV0 db id = (.error .typeError, db)) := by
  refine ⟨?_, ?_, ?_, ?_⟩
  · simp [deletePermission, jsFalsyList]
  · intro p
    simp [deletePermission, jsFalsyList, List.mem_filter]
  · intro us2
    simp [deletePermission, jsFalsyList]
  · intro h
    have hfil : db.users.filter (fun u => u.user_id == id) = [] := by
      rw [List.filter_eq_nil_iff]
      intro a ha
      simpa using List.find?_eq_none.mp h a ha
    unfold deletePermissionV0
    simp [jsFalsyList, hfil]

/-- Witness for `revoke_unconditional_delete` at `dbC6`: no user id equals
the permission id `p1`, so the part_000 variant crashes and deletes
nothing. -/
theorem revoke_unconditional_delete_witness :
    deletePermissionV0 dbC6 "p1" = (.error .typeError, dbC6) :=
  (revoke_unconditional_delete dbC6 "p1").2.2.2 (by rfl)

/-- C9: when the upload supplies an `existingFileId` that matches no File
row, the handler answers 404 ("File not found") only after the blob write:
the returned state carries the original relational store unchanged while
the blob log has the new `(filename, bytes, content-type)` entry on top. -/
theorem upload_missing_file_blob_written
    (tbl : BadTable) (db : DB) (blob : BlobStore) (uid wid : String)
    (body : List Char) (filenameQ contentTypeH : Option String)
    (fid newId : String)
    (hu : (db.users.filter (fun u => u.user_id == uid)).isEmpty = false)
    (hfid : fid ≠ "")
    (hf : (db.files.filter (fun f => f.file_id == fid)).head? = none) :
    uploadFile tbl db blob uid wid body filenameQ (some fid) contentTypeH newId
      = (.error (.notFound "File not found"), db,
         (jsOrStr filenameQ "uploaded_file",
          (if isTextual (jsOrStr contentTypeH "application/octet-stream") = true
           then filterBadWords tbl body "en" else body),
          jsOrStr contentTypeH "application/octet-stream") :: blob) := by
  have hjs : jsTruthyStr (some fid) = some fid := by
    simp [jsTruthyStr, hfid]
  unfold uploadFile
  simp [hu, hjs, hf]

/-- Witness for `upload_missing_file_blob_written`: uploading to the
nonexistent file id `nofile` in `dbC9` errors with the blob written. -/
theorem upload_missing_file_blob_written_witness :
    uploadFile tblEmpty dbC9 [] "u1" "w1" ['x'] none (some "nofile") none "n1"
      = (.error (.notFound "File not found"), dbC9,
         (jsOrStr none "uploaded_file",
          (if isTextual (jsOrStr none "application/octet-stream") = true
           then filterBadWords tblEmpty ['x'] "en" else ['x']),
          jsOrStr none "application/octet-stream") :: []) :=
  upload_missing_file_blob_written tblEmpty dbC9 [] "u1" "w1" ['x'] none none
    "nofile" "n1" (by rfl) (by decide) (by rfl)

/-- C8 counterexample: with the (pathological but legal) "en" blocklist
containing the empty string and the 23-character mask of the empty string,
filtering the empty input once produces that mask (JS renders `""[0]` as
the text "undefined" inside the template literal), and filtering a second
time re-masks it to "u*****d" — so filtering twice differs from filtering
once. -/
theorem filter_not_idempotent_cex :
    filterBadWords tblPatho (filterBadWords tblPatho [] "en") "en"
      ≠ filterBadWords tblPatho [] "en" := by decide

/-- C8 amended: for every blocklist in which no entry is the empty string,
the bad-word filter is idempotent: a first pass yields lower-case,
strip-free, whitespace-normalised tokens, so the second pass splits into
exactly the stepped tokens of the first, and the token step is idempotent
(a mask is first char + five stars + last char of a seven-character
string, which rebuilds itself). -/
theorem filter_idempotent_of_no_empty_badword (tbl : BadTable) (lang : String)
    (H : ∀ ws, tbl lang = some ws → [] ∉ ws) (input : List Char) :
    filterBadWords tbl (filterBadWords tbl input lang) lang
      = filterBadWords tbl input lang := by
  have hfix1 : stripL (filterBadWords tbl input lang) = filterBadWords tbl input lang :=
    stripL_fixed _ (fun c hc => (filterBadWords_chars tbl lang input H c hc).2)
  have hfix2 : lowerL (filterBadWords tbl input lang) = filterBadWords tbl input lang :=
    lowerL_fixed _ (fun c hc => (filterBadWords_chars tbl lang input H c hc).1)
  have hsplit : splitWs (filterBadWords tbl input lang)
      = (splitWs (lowerL (stripL input))).map (filterStep tbl lang) := by
    have hrepr : filterBadWords tbl input lang
        = joinTok ((splitWs (lowerL (stripL input))).map (filterStep tbl lang)) := rfl
    rw [hrepr]
    apply splitWs_joinTok
    · intro hmap
      exact splitWs_ne_nil (lowerL (stripL input)) (List.map_eq_nil_iff.mp hmap)
    · intro u hu
      obtain ⟨t0, ht0, rfl⟩ := List.mem_map.mp hu
      exact filterStep_okTok tbl lang H t0 (mem_splitWs_noWs _ t0 ht0)
    · exact midNonEmpty_map _ (filterStep_eq_nil_iff tbl lang H) _
        (splitWs_midNonEmpty _)
  have hcomp : (filterStep tbl lang) ∘ (filterStep tbl lang) = filterStep tbl lang :=
    funext (filterStep_idem tbl lang H)
  calc filterBadWords tbl (filterBadWords tbl input lang) lang
      = joinTok ((splitWs (lowerL (stripL (filterBadWords tbl input lang)))).map
          (filterStep tbl lang)) := rfl
    _ = joinTok ((splitWs (filterBadWords tbl input lang)).map
          (filterStep tbl lang)) := by rw [hfix1, hfix2]
    _ = joinTok (((splitWs (lowerL (stripL input))).map (filterStep tbl lang)).map
          (filterStep tbl lang)) := by rw [hsplit]
    _ = joinTok ((splitWs (lowerL (stripL input))).map (filterStep tbl lang)) := by
          rw [List.map_map, hcomp]
    _ = filterBadWords tbl input lang := rfl

/-- Witness for `filter_idempotent_of_no_empty_badword` at the "en" table
whose blocklist is `["bad"]` and a concrete mixed-case input. -/
theorem filter_idempotent_witness :
    filterBadWords tblEn (filterBadWords tblEn "Hello, BAD world!".data "en") "en"
      = filterBadWords tblEn "Hello, BAD world!".data "en" :=
  filter_idempotent_of_no_empty_badword tblEn "en"
    (by
      intro ws h
      obtain rfl := Option.some.inj h
      decide)
    "Hello, BAD world!".data

/-- C10: on every upload by an existing user, a textual content type
stores exactly `filterBadWords(text, "en")` (the handler hard-codes "en";
the route has no language parameter at all), any other content type stores
the body byte-for-byte, and on blocklist-free text the filter output is
precisely the spec's normal form: lower-cased, the six characters
stripped, and every whitespace run collapsed to a single space. -/
theorem upload_stores_filtered_text (tbl : BadTable) (db : DB) (blob : BlobStore)
    (uid wid : String) (body : List Char)
    (filenameQ fileIdQ contentTypeH : Option String) (newId : String)
    (hu : (db.users.filter (fun u => u.user_id == uid)).isEmpty = false) :
    (isTextual (jsOrStr contentTypeH "application/octet-stream") = true →
      ∃ r db2, uploadFile tbl db blob uid wid body filenameQ fileIdQ contentTypeH newId
        = (r, db2, (jsOrStr filenameQ "uploaded_file",
                    filterBadWords tbl body "en",
                    jsOrStr contentTypeH "application/octet-stream") :: blob))
    ∧ (isTextual (jsOrStr contentTypeH "application/octet-stream") = false →
      ∃ r db2, uploadFile tbl db blob uid wid body filenameQ fileIdQ contentTypeH newId
        = (r, db2, (jsOrStr filenameQ "uploaded_file", body,
                    jsOrStr contentTypeH "application/octet-stream") :: blob))
    ∧ ((∀ t ∈ splitWs (lowerL (stripL body)), checkBadWord tbl t "en" = false) →
      filterBadWords tbl body "en" = specNormalize body) := by
  refine ⟨?_, ?_, ?_⟩
  · intro ht
    unfold uploadFile
    simp only [hu, Bool.false_eq_true, if_false, ht, if_true]
    rcases hq : jsTruthyStr fileIdQ with _ | fid
    · exact ⟨_, _, rfl⟩
    · rcases hh : (db.files.filter (fun f => f.file_id == fid)).head? with _ | f0 <;>
        simp only [hh] <;> exact ⟨_, _, rfl⟩
  · intro ht
    unfold uploadFile
    simp only [hu, Bool.false_eq_true, if_false, ht]
    rcases hq : jsTruthyStr fileIdQ with _ | fid
    · exact ⟨_, _, rfl⟩
    · rcases hh : (db.files.filter (fun f => f.file_id == fid)).head? with _ | f0 <;>
        simp only [hh] <;> exact ⟨_, _, rfl⟩
  · intro hclean
    unfold filterBadWords specNormalize
    rw [map_fixed _ _ (fun t ht => by simp [filterStep, hclean t ht])]
    exact joinTok_splitWs _

/-- Witness for `upload_stores_filtered_text`: a `text/plain` upload by
`u1` in `dbC9` stores the filtered bytes. -/
theorem upload_stores_filtered_text_witness :
    ∃ r db2, uploadFile tblEn dbC9 [] "u1" "w1" "Hi, BAD".data none none
        (some "text/plain") "n1"
      = (r, db2, (jsOrStr none "uploaded_file",
                  filterBadWords tblEn "Hi, BAD".data "en",
                  jsOrStr (some "text/plain") "application/octet-stream") :: []) :=
  (upload_stores_filtered_text tblEn dbC9 [] "u1" "w1" "Hi, BAD".data none none
    (some "text/plain") "n1" (by rfl)).1 (by rfl)

end DMS
